import Mathlib

set_option maxRecDepth 100000

/-!
Verification of the ChainBluffEngine poker core: a shallow embedding of
`src/poker_engine.py` (commit-reveal deck, hand evaluator, betting state
machine) and of the terminal logic of `src/cfr_strategy.py`
(`CFRAgent._cfr_traverse`), with theorems settling the specification claims.

Python floats used for chip amounts are modelled as exact rationals (all
amounts occurring in the engine are small decimals); Python's process-wide
Mersenne-Twister generator is modelled as an explicit function parameter
`mtStream : Nat -> Nat -> Nat` (seed, then draw index), and SHA-256 as an
explicit parameter `shaBytes : String -> List Nat` (digest bytes).  All
claims proved below hold for every choice of these parameters.
-/

/-- Card ranks, `RANKS = ['2',...,'A']` in `poker_engine.py`. -/
inductive Rank where
  | r2 | r3 | r4 | r5 | r6 | r7 | r8 | r9 | rT | rJ | rQ | rK | rA
deriving DecidableEq

/-- Card suits, `SUITS = ['h','d','c','s']`. -/
inductive Suit where
  | h | d | c | s
deriving DecidableEq

/-- `RANKS` list, in source order. -/
def RANKS : List Rank :=
  [.r2, .r3, .r4, .r5, .r6, .r7, .r8, .r9, .rT, .rJ, .rQ, .rK, .rA]

/-- `SUITS` list, in source order. -/
def SUITS : List Suit := [.h, .d, .c, .s]

/-- `RANK_VALUES[r]`: '2' ↦ 2, ..., 'A' ↦ 14. -/
def RANK_VALUES : Rank → Nat
  | .r2 => 2 | .r3 => 3 | .r4 => 4 | .r5 => 5 | .r6 => 6 | .r7 => 7
  | .r8 => 8 | .r9 => 9 | .rT => 10 | .rJ => 11 | .rQ => 12 | .rK => 13
  | .rA => 14

/-- The `Card` dataclass. -/
structure Card where
  rank : Rank
  suit : Suit
deriving DecidableEq

/-- `[Card(r, s) for r in RANKS for s in SUITS]`. -/
def canonicalDeck : List Card :=
  (RANKS.map (fun r => SUITS.map (fun su => Card.mk r su))).flatten

/-- One in-place swap `x[i], x[j] = x[j], x[i]` of Python's
`random.shuffle` body, modelled on lists (identity out of bounds;
in the shuffle both indices are always in bounds). -/
def listSwap {α : Type} (l : List α) (i j : Nat) : List α :=
  if h : i < l.length ∧ j < l.length then
    (l.set i (l.get ⟨j, h.2⟩)).set j (l.get ⟨i, h.1⟩)
  else l

/-- Fisher–Yates loop `for i in reversed(range(1, len(x)))` of
`random.shuffle`: the draw at index `i` is `g i % (i+1)`, modelling
`_randbelow(i+1)` for the seeded generator stream `g`. -/
def fyAux {α : Type} (g : Nat → Nat) : List α → Nat → List α
  | l, 0 => l
  | l, i + 1 => fyAux g (listSwap l (i + 1) (g (i + 1) % (i + 2))) i

/-- `random.shuffle(x)` for a generator stream `g`. -/
def randomShuffle {α : Type} (g : Nat → Nat) (l : List α) : List α :=
  fyAux g l (l.length - 1)

theorem count_set_balance {α : Type} [DecidableEq α] (l : List α) (i : Nat)
    (hi : i < l.length) (a b : α) :
    (l.set i a).count b + (if l[i] = b then 1 else 0) =
      l.count b + (if a = b then 1 else 0) := by
  have hdecomp : l = l.take i ++ l[i] :: l.drop (i + 1) := by
    conv_lhs => rw [← List.take_append_drop i l]
    rw [List.drop_eq_getElem_cons hi]
  rw [List.set_eq_take_cons_drop a hi]
  conv_rhs => rw [hdecomp]
  simp only [List.count_append, List.count_cons, beq_iff_eq]
  split_ifs <;> omega

theorem count_listSwap {α : Type} [DecidableEq α] (l : List α) (i j : Nat) (b : α) :
    (listSwap l i j).count b = l.count b := by
  unfold listSwap
  split
  case isTrue h =>
    obtain ⟨hi, hj⟩ := h
    simp only [List.get_eq_getElem]
    have hj' : j < (l.set i l[j]).length := by simpa using hj
    have hgetj : (l.set i l[j])[j] = l[j] := by
      by_cases hij : i = j
      · subst hij
        exact List.getElem_set_self hj'
      · rw [List.getElem_set_ne hij]
    have e1 := count_set_balance (l.set i l[j]) j hj' l[i] b
    have e2 := count_set_balance l i hi l[j] b
    rw [hgetj] at e1
    split_ifs at e1 e2 <;> omega
  case isFalse h => rfl

theorem perm_listSwap {α : Type} [DecidableEq α] (l : List α) (i j : Nat) :
    (listSwap l i j).Perm l := by
  rw [List.perm_iff_count]
  intro a
  exact count_listSwap l i j a

theorem perm_fyAux {α : Type} [DecidableEq α] (g : Nat → Nat) (l : List α) (n : Nat) :
    (fyAux g l n).Perm l := by
  induction n generalizing l with
  | zero => exact List.Perm.refl l
  | succ i ih =>
    exact (ih _).trans (perm_listSwap l (i + 1) (g (i + 1) % (i + 2)))

theorem perm_randomShuffle {α : Type} [DecidableEq α] (g : Nat → Nat) (l : List α) :
    (randomShuffle g l).Perm l :=
  perm_fyAux g l (l.length - 1)

/-- The `CommitRevealDeck` state. -/
structure CommitRevealDeck where
  server_seed : Option String
  client_seed : Option String
  deck : List Card
  deck_index : Nat
  commitment : Option String
  is_committed : Bool
  is_revealed : Bool
deriving DecidableEq

/-- `CommitRevealDeck.__init__` / `reset`. -/
def CommitRevealDeck.init : CommitRevealDeck :=
  { server_seed := none, client_seed := none, deck := [], deck_index := 0,
    commitment := none, is_committed := false, is_revealed := false }

section DeckModel

variable (shaHex : String → String) (shaBytes : String → List Nat)
variable (mtStream : Nat → Nat → Nat)

/-- `generate_commitment`, with the random secret (`secrets.token_hex(32)`)
supplied as an explicit input. -/
def generateCommitment (secret : String) (d : CommitRevealDeck) :
    String × CommitRevealDeck :=
  let c := shaHex secret
  (c, { d with server_seed := some secret, commitment := some c,
               is_committed := true, is_revealed := false })

/-- `int.from_bytes(sha256(combined).digest()[:4], 'big')`. -/
def seedInt (combined : String) : Nat :=
  ((shaBytes combined).take 4).foldl (fun acc b => acc * 256 + b % 256) 0

/-- The shuffled deck computed by `reveal_and_shuffle`: combine the seeds,
hash, derive the 4-byte seed, rebuild the canonical deck and shuffle it
with the generator seeded from the combined hash. -/
def shuffledDeck (serverSeed clientSeed : String) : List Card :=
  randomShuffle (mtStream (seedInt shaBytes (serverSeed ++ clientSeed)))
    canonicalDeck

/-- The successful-path state update of `reveal_and_shuffle`. -/
def revealResult (clientSeed : String) (d : CommitRevealDeck) :
    CommitRevealDeck :=
  { d with client_seed := some clientSeed,
           deck := shuffledDeck shaBytes mtStream (d.server_seed.getD "")
             clientSeed,
           deck_index := 0, is_revealed := true }

theorem revealResult_deck (clientSeed : String) (d : CommitRevealDeck) :
    (revealResult shaBytes mtStream clientSeed d).deck =
      shuffledDeck shaBytes mtStream (d.server_seed.getD "") clientSeed := by
  dsimp only [revealResult]

theorem perm_shuffledDeck (serverSeed clientSeed : String) :
    (shuffledDeck shaBytes mtStream serverSeed clientSeed).Perm
      canonicalDeck := by
  unfold shuffledDeck
  exact perm_randomShuffle _ _

/-- `reveal_and_shuffle`: the two `raise ValueError` paths become `.error`;
on success the deck is the canonical 52 cards shuffled by the seeded stream. -/
def revealAndShuffle (clientSeed : String) (d : CommitRevealDeck) :
    Except String CommitRevealDeck :=
  if d.is_committed = false then
    .error "Must generate commitment before revealing"
  else if d.is_revealed = true then
    .error "Already revealed for this hand"
  else
    .ok (revealResult shaBytes mtStream clientSeed d)

/-- `deal_card`. -/
def dealCard (d : CommitRevealDeck) : Option Card × CommitRevealDeck :=
  match d.deck[d.deck_index]? with
  | none => (none, d)
  | some c => (some c, { d with deck_index := d.deck_index + 1 })

/-- `deal_cards(count)`. -/
def dealCards (count : Nat) (d : CommitRevealDeck) :
    List Card × CommitRevealDeck :=
  match count with
  | 0 => ([], d)
  | n + 1 =>
    let (c?, d') := dealCard d
    let (rest, d'') := dealCards n d'
    match c? with
    | some c => (c :: rest, d'')
    | none => (rest, d'')

end DeckModel

/-- A concrete SHA-256 stand-in used only to instantiate witnesses. -/
def sampleShaBytes : String → List Nat := fun _ => [1, 2, 3, 4]

/-- A concrete generator-stream stand-in used only to instantiate witnesses. -/
def sampleStream : Nat → Nat → Nat := fun seed i => seed + i

/-- A committed, unrevealed deck state with server seed `"srv"`. -/
def sampleCommittedDeck : CommitRevealDeck :=
  { CommitRevealDeck.init with
    server_seed := some "srv"
    commitment := some "h"
    is_committed := true }

/-- A second committed deck state, same server seed, other fields different. -/
def sampleCommittedDeck2 : CommitRevealDeck :=
  { CommitRevealDeck.init with
    server_seed := some "srv"
    commitment := some "h2"
    is_committed := true
    deck_index := 7 }

set_option maxRecDepth 10000 in
theorem canonicalDeck_nodup : canonicalDeck.Nodup := by decide

set_option maxRecDepth 10000 in
theorem mem_canonicalDeck (c : Card) : c ∈ canonicalDeck := by
  cases c with
  | mk r su => cases r <;> cases su <;> decide

/-- C1: two runs of `reveal_and_shuffle` on committed, unrevealed decks
holding the same server seed, revealed with the same client seed, succeed
and produce the identical ordered 52-card sequence: the shuffled deck is a
deterministic function of the two seeds alone (for every hash model and
every generator model). -/
theorem reveal_deterministic (shaBytes : String → List Nat)
    (mtStream : Nat → Nat → Nat)
    (d1 d2 : CommitRevealDeck) (clientSeed : String)
    (hc1 : d1.is_committed = true) (hr1 : d1.is_revealed = false)
    (hc2 : d2.is_committed = true) (hr2 : d2.is_revealed = false)
    (hseed : d1.server_seed = d2.server_seed) :
    ∃ e1 e2 : CommitRevealDeck,
      revealAndShuffle shaBytes mtStream clientSeed d1 = .ok e1 ∧
      revealAndShuffle shaBytes mtStream clientSeed d2 = .ok e2 ∧
      e1.deck = e2.deck := by
  unfold revealAndShuffle
  rw [hc1, hr1, hc2, hr2]
  refine ⟨revealResult shaBytes mtStream clientSeed d1,
    revealResult shaBytes mtStream clientSeed d2, rfl, rfl, ?_⟩
  rw [revealResult_deck, revealResult_deck, hseed]

/-- Witness for C1 at concrete parameters and states. -/
theorem reveal_deterministic_witness :
    ∃ e1 e2 : CommitRevealDeck,
      revealAndShuffle sampleShaBytes sampleStream "cli" sampleCommittedDeck
        = .ok e1 ∧
      revealAndShuffle sampleShaBytes sampleStream "cli" sampleCommittedDeck2
        = .ok e2 ∧
      e1.deck = e2.deck :=
  reveal_deterministic sampleShaBytes sampleStream
    sampleCommittedDeck sampleCommittedDeck2 "cli" rfl rfl rfl rfl rfl

/-- C2: after every successful reveal, the deck is an exact permutation of
the 52 canonical cards: every canonical card occurs exactly once (no
duplicates, no omissions), for every choice of seeds, hash model and
generator model. -/
theorem reveal_deck_permutation (shaBytes : String → List Nat)
    (mtStream : Nat → Nat → Nat)
    (d e : CommitRevealDeck) (clientSeed : String)
    (hok : revealAndShuffle shaBytes mtStream clientSeed d = .ok e) :
    e.deck.Perm canonicalDeck ∧ (∀ c : Card, e.deck.count c = 1) := by
  unfold revealAndShuffle at hok
  by_cases hc : d.is_committed = false
  · rw [if_pos hc] at hok
    exact absurd hok (by simp)
  · rw [if_neg hc] at hok
    by_cases hr : d.is_revealed = true
    · rw [if_pos hr] at hok
      exact absurd hok (by simp)
    · rw [if_neg hr] at hok
      have he : revealResult shaBytes mtStream clientSeed d = e :=
        Except.ok.inj hok
      have hdeck : e.deck =
          shuffledDeck shaBytes mtStream (d.server_seed.getD "") clientSeed := by
        rw [← he, revealResult_deck]
      have hperm : e.deck.Perm canonicalDeck := by
        rw [hdeck]
        exact perm_shuffledDeck shaBytes mtStream _ _
      refine ⟨hperm, fun c => ?_⟩
      rw [hperm.count_eq c]
      exact List.count_eq_one_of_mem canonicalDeck_nodup (mem_canonicalDeck c)

/-- Witness for C2 at concrete parameters and state. -/
theorem reveal_deck_permutation_witness :
    ∃ e : CommitRevealDeck,
      revealAndShuffle sampleShaBytes sampleStream "abc" sampleCommittedDeck
        = .ok e ∧
      e.deck.Perm canonicalDeck ∧ (∀ c : Card, e.deck.count c = 1) := by
  refine ⟨_, rfl, reveal_deck_permutation sampleShaBytes sampleStream
    sampleCommittedDeck _ "abc" rfl⟩

/-! ## Hand evaluator (`HandEvaluator` in `poker_engine.py`) -/

/-- Python `sorted(l, reverse=True)` on rank values (a stable sort;
insertion sort is observationally identical to Python's sort here since
equal naturals are indistinguishable). -/
def sortDesc (l : List Nat) : List Nat :=
  List.insertionSort (· ≥ ·) l

theorem sortDesc_perm (l : List Nat) : (sortDesc l).Perm l :=
  List.perm_insertionSort _ l

theorem sortDesc_sorted (l : List Nat) :
    (sortDesc l).Sorted (· ≥ ·) :=
  List.sorted_insertionSort _ l

theorem sortDesc_eq_of_perm {l m : List Nat} (hp : l.Perm m)
    (hm : m.Sorted (· ≥ ·)) : sortDesc l = m := by
  have anti : IsAntisymm Nat (· ≥ ·) := ⟨fun a b h1 h2 => le_antisymm h2 h1⟩
  exact List.eq_of_perm_of_sorted ((sortDesc_perm l).trans hp)
    (sortDesc_sorted l) hm

/-- Iteration order of the keys of the Python dict `rank_counts` built by
scanning `ranks` left to right: first occurrences, in scan order. -/
def uniqueKeys (l : List Nat) : List Nat :=
  l.foldl (fun acc x => if x ∈ acc then acc else acc ++ [x]) []

/-- `HandEvaluator._is_straight`. -/
def isStraight (ranks : List Nat) : Bool :=
  let unique := sortDesc ranks.dedup
  if unique.length ≠ 5 then false
  else if ((unique.headD 0 : Int) - (unique.getD 4 0 : Nat)) = 4 then true
  else decide (unique = [14, 5, 4, 3, 2])

/-- The Python sort key `(rank_counts[x], x)` compared descending:
`x` may come before `y` iff `(count y, y) ≤ (count x, x)` lexicographically. -/
def keyGE (ranks : List Nat) (x y : Nat) : Bool :=
  decide (ranks.count y < ranks.count x) ||
    (decide (ranks.count x = ranks.count y) && decide (y ≤ x))

/-- `sorted(rank_counts.keys(), key=..., reverse=True)`; the sort key
`(count, rank)` is injective on the distinct keys, so any correct sort
gives the unique sorted list. -/
def sortedRanksBy (ranks : List Nat) : List Nat :=
  List.insertionSort (fun x y => keyGE ranks x y = true) (uniqueKeys ranks)

/-- Python list comparison `a > b` on integer lists (lexicographic, a
longer list beats its proper prefix). -/
def listGT : List Nat → List Nat → Bool
  | [], _ => false
  | _ :: _, [] => true
  | x :: xs, y :: ys =>
    if x > y then true else if x < y then false else listGT xs ys

/-- `sorted(rank_counts.values(), reverse=True)` for a rank list. -/
def countsOf (ranks : List Nat) : List Nat :=
  sortDesc ((uniqueKeys ranks).map (fun r => ranks.count r))

/-- The branch structure of `_evaluate_five_cards` below the flush/straight
flags and the wheel rewrite: `ranks` is the (possibly wheel-rewritten)
descending rank list, `origStraight` is the straight flag computed on the
original sorted ranks, `is_flush` the all-suits-equal flag. -/
def eval5Branches (ranks : List Nat) (origStraight is_flush : Bool) :
    Int × String × List Nat :=
  if origStraight ∧ is_flush then
    if ranks.headD 0 = 14 ∧ ranks.getD 1 0 = 13 then (9, "royal_flush", ranks)
    else (8, "straight_flush", ranks)
  else if countsOf ranks = [4, 1] then (7, "four_of_a_kind", sortedRanksBy ranks)
  else if countsOf ranks = [3, 2] then (6, "full_house", sortedRanksBy ranks)
  else if is_flush then (5, "flush", ranks)
  else if origStraight then (4, "straight", ranks)
  else if countsOf ranks = [3, 1, 1] then (3, "three_of_a_kind", sortedRanksBy ranks)
  else if countsOf ranks = [2, 2, 1] then (2, "two_pair", sortedRanksBy ranks)
  else if countsOf ranks = [2, 1, 1, 1] then (1, "pair", sortedRanksBy ranks)
  else (0, "high_card", ranks)

/-- `_evaluate_five_cards` on the sorted descending rank list and the suit
list of the five cards. -/
def eval5Core (ranks : List Nat) (suits : List Suit) :
    Int × String × List Nat :=
  eval5Branches
    (if isStraight ranks ∧ ranks = [14, 5, 4, 3, 2] then [5, 4, 3, 2, 1]
     else ranks)
    (isStraight ranks) (suits.dedup.length == 1)

/-- `HandEvaluator._evaluate_five_cards`. -/
def eval5 (cards : List Card) : Int × String × List Nat :=
  eval5Core (sortDesc (cards.map (fun c => RANK_VALUES c.rank)))
    (cards.map Card.suit)

/-- `itertools.combinations(cards, n)`, in the same order. -/
def combinations {α : Type} : Nat → List α → List (List α)
  | 0, _ => [[]]
  | _ + 1, [] => []
  | n + 1, x :: xs =>
    ((combinations n xs).map (fun t => x :: t)) ++ combinations (n + 1) xs

/-- The running-maximum update of `evaluate_hand`'s loop body. -/
def bestUpdate (best : Int × String × List Nat) (cand : Int × String × List Nat) :
    Int × String × List Nat :=
  if cand.1 > best.1 ∨ (cand.1 = best.1 ∧ listGT cand.2.2 best.2.2) then cand
  else best

/-- `HandEvaluator.evaluate_hand`: fewer than 5 cards short-circuits;
otherwise the best of all 5-card combinations. -/
def evaluate_hand (cards : List Card) : Int × String × List Nat :=
  if cards.length < 5 then
    (0, "high_card",
      match cards with
      | [] => [0]
      | c :: _ => [RANK_VALUES c.rank])
  else
    (combinations 5 cards).foldl (fun best combo => bestUpdate best (eval5 combo))
      (-1, "high_card", [])

/-- The kicker loop of `compare_hands`: `for k1, k2 in zip(...)`. -/
def kickersCmp : List Nat → List Nat → Int
  | x :: xs, y :: ys =>
    if x ≠ y then (if x > y then 1 else -1) else kickersCmp xs ys
  | _, _ => 0

/-- `HandEvaluator.compare_hands`. -/
def compare_hands (hand1 hand2 : List Card) : Int :=
  let e1 := evaluate_hand hand1
  let e2 := evaluate_hand hand2
  if e1.1 ≠ e2.1 then (if e1.1 > e2.1 then 1 else -1)
  else kickersCmp e1.2.2 e2.2.2

theorem kickersCmp_self (k : List Nat) : kickersCmp k k = 0 := by
  induction k with
  | nil => rfl
  | cons x xs ih =>
    unfold kickersCmp
    simp [ih]

theorem kickersCmp_antisymm (k1 k2 : List Nat) :
    kickersCmp k1 k2 = -kickersCmp k2 k1 := by
  induction k1 generalizing k2 with
  | nil => cases k2 <;> rfl
  | cons x xs ih =>
    cases k2 with
    | nil => rfl
    | cons y ys =>
      unfold kickersCmp
      by_cases hxy : x = y
      · simp [hxy, ih ys]
      · have hyx : ¬(y = x) := fun h => hxy h.symm
        simp only [ne_eq, hxy, hyx, not_false_eq_true, if_true, if_neg,
          not_true_eq_false, if_false]
        rcases Nat.lt_or_ge x y with h | h
        · have h1 : ¬(x > y) := by omega
          have h2 : y > x := h
          simp [h1, h2]
        · have h2 : x > y := by omega
          have h1 : ¬(y > x) := by omega
          simp [h1, h2]

theorem kickersCmp_cases (k1 k2 : List Nat) :
    kickersCmp k1 k2 = -1 ∨ kickersCmp k1 k2 = 0 ∨ kickersCmp k1 k2 = 1 := by
  induction k1 generalizing k2 with
  | nil => cases k2 <;> simp [kickersCmp]
  | cons x xs ih =>
    cases k2 with
    | nil => simp [kickersCmp]
    | cons y ys =>
      unfold kickersCmp
      by_cases hxy : x = y
      · simpa [hxy] using ih ys
      · simp only [ne_eq, hxy, not_false_eq_true, if_true]
        by_cases hgt : x > y <;> simp [hgt]

/-- C10: `evaluate_hand` is total on every card list: with fewer than 5
cards it does not error but returns category 0 (`high_card`) with kicker
list `[rank value of the first card]`, and `[0]` on the empty list. -/
theorem evaluate_hand_short (cards : List Card) (h : cards.length < 5) :
    evaluate_hand cards = (0, "high_card",
      match cards with
      | [] => [0]
      | c :: _ => [RANK_VALUES c.rank]) := by
  unfold evaluate_hand
  rw [if_pos h]
  cases cards <;> rfl

/-- Witness for C10 on the empty list and a 2-card list. -/
theorem evaluate_hand_short_witness :
    evaluate_hand [] = (0, "high_card", [0]) ∧
    evaluate_hand [Card.mk .rA .h, Card.mk .r2 .c] = (0, "high_card", [14]) :=
  ⟨evaluate_hand_short [] (by decide),
   evaluate_hand_short [Card.mk .rA .h, Card.mk .r2 .c] (by decide)⟩

/-- C5: on 5-to-7-card hands, `compare_hands` is antisymmetric
(`compare(a,b) = -compare(b,a)`), reflexive (`compare(a,a) = 0`), and
always returns a value in `{-1, 0, 1}`. -/
theorem compare_hands_antisymm_refl (a b : List Card)
    (ha1 : 5 ≤ a.length) (ha2 : a.length ≤ 7)
    (hb1 : 5 ≤ b.length) (hb2 : b.length ≤ 7) :
    compare_hands a b = -compare_hands b a ∧
    compare_hands a a = 0 ∧
    (compare_hands a b = -1 ∨ compare_hands a b = 0 ∨ compare_hands a b = 1) := by
  refine ⟨?_, ?_, ?_⟩
  · unfold compare_hands
    by_cases h : (evaluate_hand a).1 = (evaluate_hand b).1
    · simp only [h, ne_eq, not_true_eq_false, if_false]
      exact kickersCmp_antisymm _ _
    · have h' : ¬((evaluate_hand b).1 = (evaluate_hand a).1) :=
        fun hh => h hh.symm
      simp only [ne_eq, h, h', not_false_eq_true, if_true]
      rcases lt_trichotomy (evaluate_hand a).1 (evaluate_hand b).1 with hlt | heq | hgt
      · have h1 : ¬((evaluate_hand a).1 > (evaluate_hand b).1) := by omega
        have h2 : (evaluate_hand b).1 > (evaluate_hand a).1 := hlt
        simp [h1, h2]
      · exact absurd heq h
      · have h1 : (evaluate_hand a).1 > (evaluate_hand b).1 := hgt
        have h2 : ¬((evaluate_hand b).1 > (evaluate_hand a).1) := by omega
        simp [h1, h2]
  · unfold compare_hands
    simp [kickersCmp_self]
  · unfold compare_hands
    by_cases h : (evaluate_hand a).1 = (evaluate_hand b).1
    · simp only [h, ne_eq, not_true_eq_false, if_false]
      exact kickersCmp_cases _ _
    · simp only [ne_eq, h, not_false_eq_true, if_true]
      by_cases hgt : (evaluate_hand a).1 > (evaluate_hand b).1 <;> simp [hgt]

/-- Witness for C5 on two concrete 5-card hands. -/
theorem compare_hands_antisymm_refl_witness :
    (5 ≤ ([Card.mk .rA .h, Card.mk .rK .h, Card.mk .rQ .h, Card.mk .rJ .h,
      Card.mk .rT .h] : List Card).length) ∧
    (compare_hands
        [Card.mk .rA .h, Card.mk .rK .h, Card.mk .rQ .h, Card.mk .rJ .h,
          Card.mk .rT .h]
        [Card.mk .r2 .c, Card.mk .r7 .d, Card.mk .r9 .s, Card.mk .rJ .c,
          Card.mk .rK .d] =
      -compare_hands
        [Card.mk .r2 .c, Card.mk .r7 .d, Card.mk .r9 .s, Card.mk .rJ .c,
          Card.mk .rK .d]
        [Card.mk .rA .h, Card.mk .rK .h, Card.mk .rQ .h, Card.mk .rJ .h,
          Card.mk .rT .h]) :=
  ⟨by decide,
   (compare_hands_antisymm_refl _ _ (by decide) (by decide) (by decide)
      (by decide)).1⟩

theorem two_le_RANK_VALUES (r : Rank) : 2 ≤ RANK_VALUES r := by
  cases r <;> decide

theorem sortDesc_length (l : List Nat) : (sortDesc l).length = l.length :=
  (sortDesc_perm l).length_eq

/-- A sorted 5-element straight other than the wheel starts at 6 or above,
hence beats the wheel kickers `[5,4,3,2,1]` in Python list comparison. -/
theorem listGT_of_straight_nonwheel (ranks : List Nat)
    (hsorted : ranks.Sorted (· ≥ ·)) (hlen : ranks.length = 5)
    (hmem : ∀ x ∈ ranks, 2 ≤ x)
    (hs : isStraight ranks = true) (hw : ranks ≠ [14, 5, 4, 3, 2]) :
    listGT ranks [5, 4, 3, 2, 1] = true := by
  simp only [isStraight] at hs
  split_ifs at hs with h1 h2
  · -- middle branch: head - fifth = 4
    have hdlen : ranks.dedup.length = 5 := by
      have := sortDesc_length ranks.dedup
      omega
    have hdedup : ranks.dedup = ranks :=
      (List.dedup_sublist ranks).eq_of_length (by rw [hdlen, hlen])
    have hunique : sortDesc ranks.dedup = ranks := by
      rw [hdedup]
      exact sortDesc_eq_of_perm (List.Perm.refl ranks) hsorted
    rw [hunique] at h2
    match ranks, hlen with
    | [a, b, c, d, e], _ =>
      have ha : (a : Int) - (e : Nat) = 4 := by simpa using h2
      have he : 2 ≤ e := hmem e (by simp)
      have ha6 : 6 ≤ a := by omega
      unfold listGT
      rw [if_pos (by omega : a > 5)]
  · -- wheel branch of `_is_straight`: contradicts `ranks ≠ wheel`
    have hdlen : ranks.dedup.length = 5 := by
      have := sortDesc_length ranks.dedup
      omega
    have hdedup : ranks.dedup = ranks :=
      (List.dedup_sublist ranks).eq_of_length (by rw [hdlen, hlen])
    have hunique : sortDesc ranks.dedup = ranks := by
      rw [hdedup]
      exact sortDesc_eq_of_perm (List.Perm.refl ranks) hsorted
    rw [hunique] at hs
    simp only [decide_eq_true_eq] at hs
    exact absurd hs hw

set_option maxHeartbeats 2000000 in
theorem eval5Core_cat_4_or_8_kickers (ranks : List Nat) (suits : List Suit)
    (hsorted : ranks.Sorted (· ≥ ·)) (hlen : ranks.length = 5)
    (hmem : ∀ x ∈ ranks, 2 ≤ x)
    (hcat : (eval5Core ranks suits).1 = 4 ∨ (eval5Core ranks suits).1 = 8) :
    (eval5Core ranks suits).2.2 = [5, 4, 3, 2, 1] ∨
      listGT (eval5Core ranks suits).2.2 [5, 4, 3, 2, 1] = true := by
  unfold eval5Core at hcat ⊢
  by_cases hw : ranks = [14, 5, 4, 3, 2]
  · subst hw
    rw [if_pos ⟨by decide, rfl⟩] at hcat ⊢
    cases suits.dedup.length == 1 <;> exact Or.inl (by decide)
  · rw [if_neg (fun hand => hw hand.2)] at hcat ⊢
    by_cases hs : isStraight ranks = true
    · rw [hs] at hcat ⊢
      unfold eval5Branches at hcat ⊢
      split_ifs at hcat ⊢ <;>
        first
          | (rcases hcat with h | h <;> (try dsimp only at h) <;> omega)
          | ((try dsimp only)
             exact Or.inr
               (listGT_of_straight_nonwheel ranks hsorted hlen hmem hs hw))
    · rw [Bool.not_eq_true] at hs
      rw [hs] at hcat
      unfold eval5Branches at hcat
      split_ifs at hcat <;>
        first
          | (rcases hcat with h | h <;> (try dsimp only at h) <;> omega)
          | simp_all

/-- C6: a 5-card hand whose ranks are exactly A,5,4,3,2 is classified as a
straight (category 4), or a straight flush (category 8) when all five
suits are equal, with kicker list `[5,4,3,2,1]`; moreover every 5-card
hand classified as a straight or straight flush has kickers equal to the
wheel's `[5,4,3,2,1]` or strictly above it in Python list comparison, so
the wheel is the lowest-ranked straight. -/
theorem eval5_wheel (cards : List Card) (h5 : cards.length = 5)
    (hperm : (cards.map (fun c => RANK_VALUES c.rank)).Perm [14, 5, 4, 3, 2]) :
    (eval5 cards =
      if (cards.map Card.suit).dedup.length = 1
      then ((8 : Int), "straight_flush", [5, 4, 3, 2, 1])
      else ((4 : Int), "straight", [5, 4, 3, 2, 1])) ∧
    ∀ cards' : List Card, cards'.length = 5 →
      ((eval5 cards').1 = 4 ∨ (eval5 cards').1 = 8) →
      (eval5 cards').2.2 = [5, 4, 3, 2, 1] ∨
        listGT (eval5 cards').2.2 [5, 4, 3, 2, 1] = true := by
  constructor
  · have hsort : sortDesc (cards.map (fun c => RANK_VALUES c.rank)) =
        [14, 5, 4, 3, 2] := sortDesc_eq_of_perm hperm (by decide)
    unfold eval5
    rw [hsort]
    unfold eval5Core
    rw [if_pos ⟨by decide, rfl⟩]
    by_cases hf : (cards.map Card.suit).dedup.length = 1
    · rw [if_pos hf]
      have hb : ((cards.map Card.suit).dedup.length == 1) = true := by
        simp [hf]
      rw [hb]
      decide
    · rw [if_neg hf]
      have hb : ((cards.map Card.suit).dedup.length == 1) = false := by
        simp [hf]
      rw [hb]
      decide
  · intro cards' h5' hcat
    unfold eval5 at hcat ⊢
    refine eval5Core_cat_4_or_8_kickers _ _ (sortDesc_sorted _) ?_ ?_ hcat
    · rw [sortDesc_length, List.length_map, h5']
    · intro x hx
      obtain ⟨c, _, hc⟩ := List.mem_map.mp ((sortDesc_perm _).mem_iff.mp hx)
      rw [← hc]
      exact two_le_RANK_VALUES c.rank

/-- A concrete wheel hand (not a flush). -/
def wheelCards : List Card :=
  [Card.mk .rA .h, Card.mk .r5 .c, Card.mk .r4 .h, Card.mk .r3 .h,
   Card.mk .r2 .h]

/-- Witness for C6 on a concrete wheel hand. -/
theorem eval5_wheel_witness :
    ((wheelCards.map (fun c => RANK_VALUES c.rank)).Perm [14, 5, 4, 3, 2]) ∧
    eval5 wheelCards =
      (if (wheelCards.map Card.suit).dedup.length = 1
       then ((8 : Int), "straight_flush", [5, 4, 3, 2, 1])
       else ((4 : Int), "straight", [5, 4, 3, 2, 1])) :=
  ⟨by decide, (eval5_wheel wheelCards rfl (by decide)).1⟩

/-! ## Betting engine (`PokerGame` in `poker_engine.py`) -/

/-- The `Player` dataclass. Chip amounts are exact rationals. -/
structure Player where
  id : String
  name : String
  chips : ℚ
  hole_cards : List Card
  current_bet : ℚ
  is_folded : Bool
  is_all_in : Bool
  wallet_address : String
deriving DecidableEq

/-- `PokerGame.STAGES`. -/
def STAGES : List String := ["preflop", "flop", "turn", "river", "showdown"]

/-- The `PokerGame` session state. -/
structure PokerGame where
  session_id : String
  deck : CommitRevealDeck
  players : List Player
  community_cards : List Card
  pot : ℚ
  current_bet : ℚ
  stage : String
  current_player_index : Nat
  dealer_index : Nat
  small_blind : ℚ
  big_blind : ℚ
  actions_this_round : Nat
  last_raise_amount : ℚ
deriving DecidableEq

/-- `PokerGame.__init__(session_id)`. -/
def PokerGame.init (sid : String) : PokerGame :=
  { session_id := sid, deck := CommitRevealDeck.init, players := [],
    community_cards := [], pot := 0, current_bet := 0, stage := "preflop",
    current_player_index := 0, dealer_index := 0, small_blind := 5,
    big_blind := 10, actions_this_round := 0, last_raise_amount := 0 }

/-- `add_player`. -/
def addPlayer (g : PokerGame) (pid pname : String) (chips : ℚ) : PokerGame :=
  { g with players := g.players ++
      [{ id := pid, name := pname, chips := chips, hole_cards := [],
         current_bet := 0, is_folded := false, is_all_in := false,
         wallet_address := "" }] }

/-- `_make_bet(player_index, amount)`. -/
def makeBet (g : PokerGame) (playerIdx : Nat) (amount : ℚ) : PokerGame :=
  match g.players[playerIdx]? with
  | none => g
  | some p =>
    let actual := min amount p.chips
    let p1 := { p with chips := p.chips - actual,
                       current_bet := p.current_bet + actual }
    let p2 := if p1.chips = 0 then { p1 with is_all_in := true } else p1
    { g with players := g.players.set playerIdx p2, pot := g.pot + actual }

/-- The player-lookup loop at the top of `process_action`: first player
whose id matches, with its index. -/
def findPlayer (players : List Player) (pid : String) :
    Option (Nat × Player) :=
  match players.findIdx? (fun p => p.id == pid) with
  | none => none
  | some i =>
    match players[i]? with
    | none => none
    | some p => some (i, p)

/-- The index-advancing loop of `_move_to_next_player` (at most
`len(players)` steps, else index 0). -/
def moveNextAux (players : List Player) : Nat → Nat → Nat
  | 0, _ => 0
  | k + 1, idx =>
    let idx1 := (idx + 1) % players.length
    match players[idx1]? with
    | some p => if !p.is_folded && !p.is_all_in then idx1
                else moveNextAux players k idx1
    | none => moveNextAux players k idx1

/-- `_move_to_next_player`. -/
def moveToNextPlayer (g : PokerGame) : PokerGame :=
  { g with current_player_index :=
      moveNextAux g.players g.players.length g.current_player_index }

/-- `_reset_action_to_first_player`. -/
def firstEligibleIdx (players : List Player) : Nat :=
  match players.findIdx? (fun p => !p.is_folded && !p.is_all_in) with
  | some i => i
  | none => 0

/-- `_next_stage`. -/
def nextStage (g : PokerGame) : PokerGame :=
  let stageIdx := STAGES.findIdx (fun s => s == g.stage)
  if stageIdx < STAGES.length - 1 then
    match STAGES[stageIdx + 1]? with
    | none => g
    | some newStage =>
      let g1 := { g with stage := newStage,
                         players := g.players.map
                           (fun p => { p with current_bet := 0 }),
                         current_bet := 0, actions_this_round := 0 }
      let g2 :=
        if g1.stage = "flop" then
          let dealt := dealCards 3 g1.deck
          { g1 with community_cards := g1.community_cards ++ dealt.1,
                    deck := dealt.2 }
        else if g1.stage = "turn" then
          let dealt := dealCards 1 g1.deck
          { g1 with community_cards := g1.community_cards ++ dealt.1,
                    deck := dealt.2 }
        else if g1.stage = "river" then
          let dealt := dealCards 1 g1.deck
          { g1 with community_cards := g1.community_cards ++ dealt.1,
                    deck := dealt.2 }
        else g1
      if g2.stage ≠ "showdown" then
        { g2 with current_player_index := firstEligibleIdx g2.players }
      else g2
  else g

/-- `_advance_game`. -/
def advanceGame (g : PokerGame) : PokerGame :=
  let active := g.players.filter (fun p => !p.is_folded)
  if active.length = 1 then { g with stage := "showdown" }
  else
    let bettingComplete :=
      (g.players.all (fun p =>
        p.current_bet == g.current_bet || p.is_all_in || p.is_folded))
      && decide (g.actions_this_round ≥ active.length)
    if bettingComplete then nextStage g else g

/-- The common tail of every non-error `process_action` path: increment the
action counter, advance the seat, evaluate round completion. -/
def afterAction (g : PokerGame) : PokerGame :=
  advanceGame (moveToNextPlayer
    { g with actions_this_round := g.actions_this_round + 1 })

/-- `process_action(player_id, action, amount)`: returns the new state and
`some errorMessage` exactly on the two early-return error paths (where the
state is returned unchanged). -/
def processAction (g : PokerGame) (player_id action : String) (amount : ℚ) :
    PokerGame × Option String :=
  match findPlayer g.players player_id with
  | none => (g, some "Invalid player or already folded")
  | some (i, p) =>
    if p.is_folded then (g, some "Invalid player or already folded")
    else if action = "fold" then
      (afterAction { g with players := g.players.set i { p with is_folded := true } },
       none)
    else if action = "check" then
      if p.current_bet < g.current_bet then
        (g, some "Cannot check, must call or raise")
      else (afterAction g, none)
    else if action = "call" then
      (afterAction (makeBet g i (g.current_bet - p.current_bet)), none)
    else if action = "raise" then
      let callAmount := g.current_bet - p.current_bet
      let g1 := makeBet g i (callAmount + amount)
      let newBet := match g1.players[i]? with
        | some q => q.current_bet
        | none => 0
      (afterAction { g1 with current_bet := newBet, last_raise_amount := amount },
       none)
    else if action = "all_in" then
      let g1 := makeBet g i p.chips
      let newBet := match g1.players[i]? with
        | some q => q.current_bet
        | none => 0
      (afterAction (if newBet > g1.current_bet
                    then { g1 with current_bet := newBet } else g1),
       none)
    else (afterAction g, none)

/-- The winner / payout record of `determine_winner` (the parts of the
returned dict the claims are about). -/
structure WinnerResult where
  winner_id : Option String
  hand_rank : String
  pot : ℚ
deriving DecidableEq

/-- The best-hand selection loop of `determine_winner`, over the
non-folded players with their positions in the seat list. -/
def selectWinner (g : PokerGame) : Option (Nat × Int × String × List Nat) :=
  ((g.players.enum).filter (fun ip => !ip.2.is_folded)).foldl
    (fun best ip =>
      let e := evaluate_hand (ip.2.hole_cards ++ g.community_cards)
      match best with
      | none => some (ip.1, e)
      | some (bi, br, bn, bk) =>
        if e.1 > br ∨ (e.1 = br ∧ listGT e.2.2 bk) then some (ip.1, e)
        else some (bi, br, bn, bk))
    none

/-- `determine_winner`: credits the pot to the selected winner's stack and
returns the result record.  The `pot` field of the session is left
untouched. -/
def determineWinner (g : PokerGame) : PokerGame × WinnerResult :=
  let active := g.players.filter (fun p => !p.is_folded)
  if active.length = 0 then
    (g, { winner_id := none, hand_rank := "no active players", pot := g.pot })
  else if active.length = 1 then
    let wi := match g.players.findIdx? (fun p => !p.is_folded) with
      | some i => i
      | none => 0
    match g.players[wi]? with
    | some w =>
      ({ g with players := g.players.set wi { w with chips := w.chips + g.pot } },
       { winner_id := some w.id, hand_rank := "opponent folded", pot := g.pot })
    | none => (g, { winner_id := none, hand_rank := "opponent folded", pot := g.pot })
  else
    match selectWinner g with
    | some (wi, _, bn, _) =>
      match g.players[wi]? with
      | some w =>
        ({ g with players := g.players.set wi { w with chips := w.chips + g.pot } },
         { winner_id := some w.id, hand_rank := bn, pot := g.pot })
      | none => (g, { winner_id := none, hand_rank := bn, pot := g.pot })
    | none => (g, { winner_id := none, hand_rank := "high card", pot := g.pot })

/-- The hole-card dealing loop of `start_hand`: each seated player in order
draws two cards from the deck. -/
def dealHoles : List Player → CommitRevealDeck →
    List Player × CommitRevealDeck
  | [], d => ([], d)
  | p :: ps, d =>
    let drawn := dealCards 2 d
    let rest := dealHoles ps drawn.2
    ({ p with hole_cards := drawn.1 } :: rest.1, rest.2)

/-- `_post_blinds`. -/
def postBlinds (g : PokerGame) : PokerGame :=
  if g.players.length ≥ 2 then
    let n := g.players.length
    let sb := (g.dealer_index + 1) % n
    let bb := (g.dealer_index + 2) % n
    let g1 := makeBet g sb g.small_blind
    let g2 := makeBet g1 bb g1.big_blind
    { g2 with current_bet := g2.big_blind,
              current_player_index := (bb + 1) % n }
  else g

section GameModel

variable (shaHex : String → String) (shaBytes : String → List Nat)
variable (mtStream : Nat → Nat → Nat)

/-- `request_commitment`: reset the deck, then generate a commitment (the
fresh random secret is an explicit input). -/
def requestCommitment (secret : String) (g : PokerGame) :
    String × PokerGame :=
  let cd := generateCommitment shaHex secret CommitRevealDeck.init
  (cd.1, { g with deck := cd.2 })

/-- The two leading deck fixups of `start_hand` (both touch only the deck
object): a revealed deck is reset and re-committed, an uncommitted deck is
committed. -/
def prepareDeck (secret : String) (d : CommitRevealDeck) :
    CommitRevealDeck :=
  let d0 := if d.is_revealed then
      (generateCommitment shaHex secret CommitRevealDeck.init).2
    else d
  if d0.is_committed = false then (generateCommitment shaHex secret d0).2
  else d0

/-- `start_hand(client_seed)`: auto-resets a revealed deck, auto-commits an
uncommitted deck, reveals, resets the per-hand fields, deals hole cards and
posts blinds. -/
def startHand (secret clientSeed : String) (g : PokerGame) :
    Except String PokerGame :=
  match revealAndShuffle shaBytes mtStream clientSeed
      (prepareDeck shaHex secret g.deck) with
  | .error e => .error e
  | .ok d =>
    let g2 := { g with deck := d, community_cards := [], pot := 0,
                       current_bet := 0, stage := "preflop",
                       actions_this_round := 0,
                       players := g.players.map (fun p : Player =>
                         { p with hole_cards := [], current_bet := 0,
                                  is_folded := false, is_all_in := false }) }
    let dealt := dealHoles g2.players g2.deck
    let g3 := { g2 with players := dealt.1, deck := dealt.2 }
    .ok (postBlinds g3)

end GameModel

/-- Total chips held in the players' stacks. -/
def totalChips (g : PokerGame) : ℚ := (g.players.map Player.chips).sum

theorem findPlayer_getElem {players : List Player} {pid : String} {i : Nat}
    {p : Player} (h : findPlayer players pid = some (i, p)) :
    players[i]? = some p := by
  unfold findPlayer at h
  cases h1 : players.findIdx? (fun q => q.id == pid) with
  | none => rw [h1] at h; exact absurd h (by simp)
  | some j =>
    rw [h1] at h
    dsimp only at h
    cases h2 : players[j]? with
    | none => rw [h2] at h; exact absurd h (by simp)
    | some q =>
      rw [h2] at h
      dsimp only at h
      cases h
      exact h2

theorem chips_sum_set (l : List Player) (i : Nat) (p q : Player)
    (h : l[i]? = some p) :
    ((l.set i q).map Player.chips).sum =
      (l.map Player.chips).sum - p.chips + q.chips := by
  obtain ⟨hi, he⟩ := List.getElem?_eq_some_iff.mp h
  have hdecomp : l = l.take i ++ l[i] :: l.drop (i + 1) := by
    conv_lhs => rw [← List.take_append_drop i l]
    rw [List.drop_eq_getElem_cons hi]
  rw [List.set_eq_take_cons_drop q hi]
  conv_rhs => rw [hdecomp]
  simp only [List.map_append, List.map_cons, List.sum_append, List.sum_cons, he]
  ring

theorem makeBet_pot_chips (g : PokerGame) (i : Nat) (amt : ℚ) :
    (makeBet g i amt).pot + totalChips (makeBet g i amt) =
      g.pot + totalChips g := by
  unfold makeBet
  cases h : g.players[i]? with
  | none => rfl
  | some p =>
    dsimp only [totalChips]
    rw [chips_sum_set g.players i p _ h]
    have hc : (if p.chips - min amt p.chips = 0 then
        { p with chips := p.chips - min amt p.chips,
                 current_bet := p.current_bet + min amt p.chips,
                 is_all_in := true }
      else
        { p with chips := p.chips - min amt p.chips,
                 current_bet := p.current_bet + min amt p.chips }).chips =
        p.chips - min amt p.chips := by
      split_ifs <;> rfl
    rw [hc]
    ring

theorem makeBet_deck (g : PokerGame) (i : Nat) (amt : ℚ) :
    (makeBet g i amt).deck = g.deck := by
  unfold makeBet
  cases g.players[i]? <;> rfl

theorem moveToNextPlayer_pot (g : PokerGame) :
    (moveToNextPlayer g).pot = g.pot := rfl

theorem moveToNextPlayer_players (g : PokerGame) :
    (moveToNextPlayer g).players = g.players := rfl

theorem nextStage_pot (g : PokerGame) : (nextStage g).pot = g.pot := by
  unfold nextStage
  dsimp only
  split
  · split
    · rfl
    · split_ifs <;> rfl
  · rfl

theorem nextStage_chipsMap (g : PokerGame) :
    (nextStage g).players.map Player.chips = g.players.map Player.chips := by
  unfold nextStage
  dsimp only
  split
  · split
    · rfl
    · split_ifs <;> simp [List.map_map]
  · rfl

theorem advanceGame_pot (g : PokerGame) : (advanceGame g).pot = g.pot := by
  unfold advanceGame
  dsimp only
  split_ifs
  · rfl
  · exact nextStage_pot g
  · rfl

theorem advanceGame_chipsMap (g : PokerGame) :
    (advanceGame g).players.map Player.chips =
      g.players.map Player.chips := by
  unfold advanceGame
  dsimp only
  split_ifs
  · rfl
  · exact nextStage_chipsMap g
  · rfl

theorem afterAction_pot_chips (g : PokerGame) :
    (afterAction g).pot + totalChips (afterAction g) =
      g.pot + totalChips g := by
  unfold afterAction
  rw [advanceGame_pot, moveToNextPlayer_pot]
  unfold totalChips
  rw [advanceGame_chipsMap, moveToNextPlayer_players]

theorem pot_chips_congr (g h : PokerGame) (hpot : h.pot = g.pot)
    (hpl : h.players = g.players) :
    h.pot + totalChips h = g.pot + totalChips g := by
  rw [hpot]
  unfold totalChips
  rw [hpl]

theorem processAction_pot_chips (g : PokerGame) (pid a : String) (amt : ℚ) :
    (processAction g pid a amt).1.pot + totalChips (processAction g pid a amt).1 =
      g.pot + totalChips g := by
  unfold processAction
  cases hf : findPlayer g.players pid with
  | none => rfl
  | some ip =>
    obtain ⟨i, p⟩ := ip
    have hip : g.players[i]? = some p := findPlayer_getElem hf
    dsimp only
    split_ifs with h1 h2 h3 h4 h5x h6 h7 h8
    · rfl
    · -- fold
      rw [afterAction_pot_chips]
      dsimp only [totalChips]
      rw [chips_sum_set g.players i p _ hip]
      ring
    · rfl
    · -- legal check
      exact afterAction_pot_chips g
    · -- call
      rw [afterAction_pot_chips]
      exact makeBet_pot_chips g i _
    · -- raise
      rw [afterAction_pot_chips]
      exact (pot_chips_congr _ _ rfl rfl).trans (makeBet_pot_chips g i _)
    · -- all-in, table bet raised
      rw [afterAction_pot_chips]
      exact (pot_chips_congr _ _ rfl rfl).trans (makeBet_pot_chips g i _)
    · -- all-in, table bet unchanged
      rw [afterAction_pot_chips]
      exact makeBet_pot_chips g i _
    · -- unknown action: silent advance
      exact afterAction_pot_chips g

theorem determineWinner_pot (g : PokerGame) :
    (determineWinner g).1.pot = g.pot := by
  unfold determineWinner
  dsimp only
  split_ifs
  · rfl
  · split
    · rfl
    · rfl
  · split
    · split
      · rfl
      · rfl
    · rfl

/-- C7 (amended): for a known, non-folded player, `check` succeeds exactly
when the player's current bet is at least (not exactly equal to) the
table's current bet; when it is strictly below, a recoverable error is
returned and the session state is unchanged. -/
theorem process_check_characterization (g : PokerGame) (pid : String)
    (amt : ℚ) (i : Nat) (p : Player)
    (hfind : findPlayer g.players pid = some (i, p))
    (hnf : p.is_folded = false) :
    ((processAction g pid "check" amt).2 = none ↔
      g.current_bet ≤ p.current_bet) ∧
    (p.current_bet < g.current_bet →
      processAction g pid "check" amt =
        (g, some "Cannot check, must call or raise")) := by
  unfold processAction
  rw [hfind]
  dsimp only
  rw [if_neg (by simp [hnf]), if_neg (by decide : ¬("check" = "fold")),
    if_pos rfl]
  by_cases hlt : p.current_bet < g.current_bet
  · rw [if_pos hlt]
    exact ⟨iff_of_false (by simp) (by exact not_le.mpr hlt), fun _ => rfl⟩
  · rw [if_neg hlt]
    exact ⟨iff_of_true rfl (le_of_not_lt hlt), fun hl => absurd hl hlt⟩

/-- A fresh two-seat session: seat `p1` with 100 chips, seat `p2` with
only 8 chips. -/
def cx7g0 : PokerGame :=
  addPlayer (addPlayer (PokerGame.init "cx7") "p1" "A" 100) "p2" "B" 8

/-- After blinds: `p2` posted the small blind 5 (3 chips left), `p1` the
big blind 10; the table bet is 10 and `p2` is to act. -/
def cx7g1 : PokerGame := postBlinds cx7g0

/-- `p2` raises by 10 but can only put in its remaining 3 chips; the raise
code sets the table bet to `p2`'s total bet 8, leaving `p1`'s bet 10 above
the table bet. -/
def cx7g2 : PokerGame := (processAction cx7g1 "p2" "raise" 10).1

/-- C7 counterexample: in the reachable state `cx7g2`, the known,
non-folded player `p1` has a current bet (10) different from the table's
current bet (8), yet `check` succeeds with no error — refuting "succeeds
exactly when the player's current bet equals the table's current bet". -/
theorem process_check_claim_counterexample :
    findPlayer cx7g2.players "p1" =
      some (0, { id := "p1", name := "A", chips := 90, hole_cards := [],
                 current_bet := 10, is_folded := false, is_all_in := false,
                 wallet_address := "" }) ∧
    (10 : ℚ) ≠ cx7g2.current_bet ∧
    (processAction cx7g2 "p1" "check" 0).2 = none := by
  with_unfolding_all decide

/-- Witness for C7 (amended) at the same concrete state. -/
theorem process_check_characterization_witness :
    (((processAction cx7g2 "p1" "check" 0).2 = none ↔
      cx7g2.current_bet ≤ (10 : ℚ)) ∧
    ((10 : ℚ) < cx7g2.current_bet →
      processAction cx7g2 "p1" "check" 0 =
        (cx7g2, some "Cannot check, must call or raise"))) := by
  have h := process_check_characterization cx7g2 "p1" 0 0
    { id := "p1", name := "A", chips := 90, hole_cards := [],
      current_bet := 10, is_folded := false, is_all_in := false,
      wallet_address := "" } (by with_unfolding_all decide) rfl
  exact h

/-- C9: an action string outside the five known actions, submitted by a
known non-folded player, produces no error and moves no chips, but still
increments the action counter, advances the seat to act and evaluates
round completion — exactly the successful silent-check path, regardless of
any outstanding bet. -/
theorem process_unknown_action (g : PokerGame) (pid a : String) (amt : ℚ)
    (i : Nat) (p : Player)
    (hfind : findPlayer g.players pid = some (i, p))
    (hnf : p.is_folded = false)
    (ha : a ≠ "fold" ∧ a ≠ "check" ∧ a ≠ "call" ∧ a ≠ "raise" ∧
      a ≠ "all_in") :
    processAction g pid a amt =
      (advanceGame (moveToNextPlayer
        { g with actions_this_round := g.actions_this_round + 1 }), none) ∧
    (processAction g pid a amt).1.pot = g.pot ∧
    (processAction g pid a amt).1.players.map Player.chips =
      g.players.map Player.chips := by
  obtain ⟨ha1, ha2, ha3, ha4, ha5⟩ := ha
  have heq : processAction g pid a amt =
      (advanceGame (moveToNextPlayer
        { g with actions_this_round := g.actions_this_round + 1 }), none) := by
    unfold processAction
    rw [hfind]
    dsimp only
    rw [if_neg (by simp [hnf]), if_neg ha1, if_neg ha2, if_neg ha3,
      if_neg ha4, if_neg ha5]
    rfl
  refine ⟨heq, ?_, ?_⟩
  · rw [heq]
    dsimp only
    rw [advanceGame_pot, moveToNextPlayer_pot]
  · rw [heq]
    dsimp only
    rw [advanceGame_chipsMap, moveToNextPlayer_players]

/-- Witness for C9: in the post-blinds state `cx7g1`, player `p2` (facing
the big blind, an outstanding bet) submits `raise_half`; the engine
silently advances. -/
theorem process_unknown_action_witness :
    processAction cx7g1 "p2" "raise_half" 0 =
      (advanceGame (moveToNextPlayer
        { cx7g1 with actions_this_round := cx7g1.actions_this_round + 1 }),
       none) ∧
    (processAction cx7g1 "p2" "raise_half" 0).1.pot = cx7g1.pot ∧
    (processAction cx7g1 "p2" "raise_half" 0).1.players.map Player.chips =
      cx7g1.players.map Player.chips := by
  have h := process_unknown_action cx7g1 "p2" "raise_half" 0 1
    { id := "p2", name := "B", chips := 3, hole_cards := [],
      current_bet := 5, is_folded := false, is_all_in := false,
      wallet_address := "" } (by with_unfolding_all decide) rfl
    (by refine ⟨?_, ?_, ?_, ?_, ?_⟩ <;> decide)
  exact h

theorem dealCard_flags (d : CommitRevealDeck) :
    (dealCard d).2.is_committed = d.is_committed ∧
      (dealCard d).2.is_revealed = d.is_revealed := by
  unfold dealCard
  cases d.deck[d.deck_index]? <;> exact ⟨rfl, rfl⟩

theorem dealCards_flags (n : Nat) (d : CommitRevealDeck) :
    (dealCards n d).2.is_committed = d.is_committed ∧
      (dealCards n d).2.is_revealed = d.is_revealed := by
  induction n generalizing d with
  | zero => exact ⟨rfl, rfl⟩
  | succ m ih =>
    unfold dealCards
    dsimp only
    cases hc : (dealCard d).1 <;>
      dsimp only <;>
      exact ⟨(ih (dealCard d).2).1.trans (dealCard_flags d).1,
             (ih (dealCard d).2).2.trans (dealCard_flags d).2⟩

theorem dealHoles_flags (ps : List Player) (d : CommitRevealDeck) :
    (dealHoles ps d).2.is_committed = d.is_committed ∧
      (dealHoles ps d).2.is_revealed = d.is_revealed := by
  induction ps generalizing d with
  | nil => exact ⟨rfl, rfl⟩
  | cons p ps ih =>
    unfold dealHoles
    dsimp only
    have h1 := dealCards_flags 2 d
    have h2 := ih (dealCards 2 d).2
    exact ⟨h2.1.trans h1.1, h2.2.trans h1.2⟩

theorem postBlinds_deck (g : PokerGame) : (postBlinds g).deck = g.deck := by
  unfold postBlinds
  split_ifs
  · dsimp only
    rw [makeBet_deck, makeBet_deck]
  · rfl

theorem prepareDeck_flags (shaHex : String → String) (secret : String)
    (d : CommitRevealDeck) :
    (prepareDeck shaHex secret d).is_committed = true ∧
      (prepareDeck shaHex secret d).is_revealed = false := by
  unfold prepareDeck generateCommitment
  dsimp only
  split_ifs <;> simp_all

theorem revealAndShuffle_prepared (shaHex : String → String)
    (shaBytes : String → List Nat) (mtStream : Nat → Nat → Nat)
    (secret clientSeed : String) (d : CommitRevealDeck) :
    revealAndShuffle shaBytes mtStream clientSeed
        (prepareDeck shaHex secret d) =
      .ok (revealResult shaBytes mtStream clientSeed
        (prepareDeck shaHex secret d)) := by
  obtain ⟨h1, h2⟩ := prepareDeck_flags shaHex secret d
  unfold revealAndShuffle
  rw [if_neg (by simp [h1]), if_neg (by simp [h2])]

/-- `start_hand` never fails: the deck fixups guarantee a committed,
unrevealed deck before the reveal. -/
theorem startHand_isOk (shaHex : String → String)
    (shaBytes : String → List Nat) (mtStream : Nat → Nat → Nat)
    (secret clientSeed : String) (g : PokerGame) :
    ∃ g', startHand shaHex shaBytes mtStream secret clientSeed g = .ok g' := by
  unfold startHand
  rw [revealAndShuffle_prepared]
  exact ⟨_, rfl⟩

/-- C4 (amended): `start_hand` on a session whose deck is not committed
does not fail: it generates a commitment itself, reveals the deck and
starts the hand (for every hash model, generator model, secret and client
seed). -/
theorem startHand_uncommitted_succeeds (shaHex : String → String)
    (shaBytes : String → List Nat) (mtStream : Nat → Nat → Nat)
    (secret clientSeed : String) (g : PokerGame)
    (h : g.deck.is_committed = false) :
    ∃ g', startHand shaHex shaBytes mtStream secret clientSeed g = .ok g' ∧
      g'.deck.is_committed = true ∧ g'.deck.is_revealed = true := by
  unfold startHand
  rw [revealAndShuffle_prepared]
  refine ⟨_, rfl, ?_, ?_⟩
  · rw [postBlinds_deck]
    dsimp only
    refine ((dealHoles_flags _ _).1).trans ?_
    exact (prepareDeck_flags shaHex secret g.deck).1
  · rw [postBlinds_deck]
    dsimp only
    exact ((dealHoles_flags _ _).2).trans rfl

/-- A concrete hex-hash stand-in for commitment strings in witnesses. -/
def sampleShaHex : String → String := fun s => String.append s "#"

/-- A fresh two-seat session whose deck has never been committed. -/
def cx4g : PokerGame :=
  addPlayer (addPlayer (PokerGame.init "cx4") "p1" "A" 1000) "p2" "B" 1000

/-- C4 counterexample: on a session whose deck is not committed,
`start_hand` does not fail — it succeeds, the deck ends up committed and
revealed, and every player is dealt two hole cards. -/
theorem startHand_claim_counterexample :
    cx4g.deck.is_committed = false ∧
    (startHand sampleShaHex sampleShaBytes sampleStream "srv" "cli"
      cx4g).isOk = true ∧
    ((startHand sampleShaHex sampleShaBytes sampleStream "srv" "cli"
      cx4g).toOption.map (fun g' =>
        g'.players.all (fun p => p.hole_cards.length == 2) &&
          g'.deck.is_committed && g'.deck.is_revealed)) = some true := by
  with_unfolding_all decide

/-- Witness for C4 (amended) at the same concrete session. -/
theorem startHand_uncommitted_succeeds_witness :
    cx4g.deck.is_committed = false ∧
    ∃ g', startHand sampleShaHex sampleShaBytes sampleStream "srv" "cli"
        cx4g = .ok g' ∧
      g'.deck.is_committed = true ∧ g'.deck.is_revealed = true :=
  ⟨rfl, startHand_uncommitted_succeeds sampleShaHex sampleShaBytes
    sampleStream "srv" "cli" cx4g rfl⟩

theorem dealHoles_chipsMap (ps : List Player) (d : CommitRevealDeck) :
    (dealHoles ps d).1.map Player.chips = ps.map Player.chips := by
  induction ps generalizing d with
  | nil => rfl
  | cons p ps ih =>
    unfold dealHoles
    dsimp only [List.map_cons]
    rw [ih]

theorem postBlinds_pot_chips (g : PokerGame) :
    (postBlinds g).pot + totalChips (postBlinds g) =
      g.pot + totalChips g := by
  unfold postBlinds
  split_ifs
  · dsimp only
    refine (pot_chips_congr _ _ rfl rfl).trans ?_
    exact (makeBet_pot_chips _ _ _).trans (makeBet_pot_chips _ _ _)
  · rfl

theorem startHand_ok_pot (shaHex : String → String)
    (shaBytes : String → List Nat) (mtStream : Nat → Nat → Nat)
    (secret clientSeed : String) (g g' : PokerGame)
    (h : startHand shaHex shaBytes mtStream secret clientSeed g = .ok g') :
    g'.pot + totalChips g' = totalChips g := by
  unfold startHand at h
  rw [revealAndShuffle_prepared] at h
  dsimp only at h
  cases h
  refine (postBlinds_pot_chips _).trans ?_
  dsimp only [totalChips]
  rw [dealHoles_chipsMap]
  have hmm : (g.players.map (fun p : Player =>
      { p with hole_cards := [], current_bet := 0,
               is_folded := false, is_all_in := false })).map Player.chips =
      g.players.map Player.chips := by
    rw [List.map_map]
    rfl
  rw [hmm]
  ring

/-- One session operation of the claim's vocabulary. -/
inductive GameOp where
  | start (secret clientSeed : String)
  | act (pid action : String) (amount : ℚ)
  | showdown
deriving DecidableEq

section TraceModel

variable (shaHex : String → String) (shaBytes : String → List Nat)
variable (mtStream : Nat → Nat → Nat)

/-- Apply one operation (the engine mutates in place; the error paths of
`process_action` leave the state unchanged, and `start_hand` never
errors). -/
def applyOp (g : PokerGame) : GameOp → PokerGame
  | .start secret clientSeed =>
    match startHand shaHex shaBytes mtStream secret clientSeed g with
    | .ok g' => g'
    | .error _ => g
  | .act pid a amt => (processAction g pid a amt).1
  | .showdown => (determineWinner g).1

/-- Chips moved from the players' stacks into the pot by one operation
(`_make_bet` is the only chips-to-pot move in the engine). -/
def opMovedIn (g : PokerGame) (op : GameOp) : ℚ :=
  match op with
  | .showdown => 0
  | _ => totalChips g - totalChips (applyOp shaHex shaBytes mtStream g op)

/-- Chips paid out of the pot to a winner's stack by one operation
(`determine_winner` is the only pot-to-chips move). -/
def opPaidOut (g : PokerGame) (op : GameOp) : ℚ :=
  match op with
  | .showdown =>
    totalChips (applyOp shaHex shaBytes mtStream g .showdown) - totalChips g
  | _ => 0

/-- Run a trace, accumulating total chips moved in and total paid out. -/
def runInstr (g : PokerGame) : List GameOp → PokerGame × ℚ × ℚ
  | [] => (g, 0, 0)
  | op :: ops =>
    let g' := applyOp shaHex shaBytes mtStream g op
    let rest := runInstr g' ops
    (rest.1, opMovedIn shaHex shaBytes mtStream g op + rest.2.1,
     opPaidOut shaHex shaBytes mtStream g op + rest.2.2)

/-- Run a trace, tracking the chips moved into the pot since the most
recent `start` operation. -/
def stepSince (s : PokerGame × ℚ) (op : GameOp) : PokerGame × ℚ :=
  let g' := applyOp shaHex shaBytes mtStream s.1 op
  match op with
  | .start _ _ => (g', totalChips s.1 - totalChips g')
  | .act _ _ _ => (g', s.2 + (totalChips s.1 - totalChips g'))
  | .showdown => (g', s.2)

def runSince (g : PokerGame) (ops : List GameOp) : PokerGame × ℚ :=
  ops.foldl (stepSince shaHex shaBytes mtStream) (g, 0)

theorem stepSince_inv (s : PokerGame × ℚ) (op : GameOp)
    (h : s.1.pot = s.2) :
    (stepSince shaHex shaBytes mtStream s op).1.pot =
      (stepSince shaHex shaBytes mtStream s op).2 := by
  cases op with
  | start secret clientSeed =>
    dsimp only [stepSince, applyOp]
    obtain ⟨g', hg⟩ := startHand_isOk shaHex shaBytes mtStream secret
      clientSeed s.1
    rw [hg]
    dsimp only
    have := startHand_ok_pot shaHex shaBytes mtStream secret clientSeed
      s.1 g' hg
    linarith
  | act pid a amt =>
    dsimp only [stepSince, applyOp]
    have := processAction_pot_chips s.1 pid a amt
    linarith [h]
  | showdown =>
    dsimp only [stepSince, applyOp]
    rw [determineWinner_pot]
    exact h

/-- C3 (amended): along every operation trace from a session whose pot is
zero, the pot field always equals the chips moved from the players' stacks
into the pot since the most recent `startHand` — payouts by
`resolveShowdown` are credited to the winner's stack but never decrement
the pot field. -/
theorem pot_equals_contributions_since_start (shaHex : String → String)
    (shaBytes : String → List Nat) (mtStream : Nat → Nat → Nat)
    (ops : List GameOp) (g : PokerGame) (h0 : g.pot = 0) :
    (runSince shaHex shaBytes mtStream g ops).1.pot =
      (runSince shaHex shaBytes mtStream g ops).2 := by
  unfold runSince
  have hgen : ∀ (s : PokerGame × ℚ), s.1.pot = s.2 →
      (ops.foldl (stepSince shaHex shaBytes mtStream) s).1.pot =
        (ops.foldl (stepSince shaHex shaBytes mtStream) s).2 := by
    induction ops with
    | nil => intro s hs; exact hs
    | cons op ops ih =>
      intro s hs
      rw [List.foldl_cons]
      exact ih _ (stepSince_inv shaHex shaBytes mtStream s op hs)
  exact hgen (g, 0) h0

end TraceModel

/-- A fresh two-seat session for the pot-accounting trace. -/
def cx3g : PokerGame :=
  addPlayer (addPlayer (PokerGame.init "cx3") "p1" "A" 1000) "p2" "B" 1000

/-- start a hand, the small blind folds, resolve the showdown. -/
def cx3ops : List GameOp :=
  [.start "srv" "cli", .act "p2" "fold" 0, .showdown]

/-- C3 counterexample: after the trace start → fold → showdown, the winner
has been paid the whole pot (15 chips moved in, 15 paid out) but the
session's pot field still reads 15, not 15 − 15 = 0 — refuting "pot equals
chips moved in minus payouts" after `resolveShowdown`. -/
theorem pot_claim_counterexample :
    (runInstr sampleShaHex sampleShaBytes sampleStream cx3g cx3ops).2.1 = 15 ∧
    (runInstr sampleShaHex sampleShaBytes sampleStream cx3g cx3ops).2.2 = 15 ∧
    (runInstr sampleShaHex sampleShaBytes sampleStream cx3g cx3ops).1.pot = 15 ∧
    (runInstr sampleShaHex sampleShaBytes sampleStream cx3g cx3ops).1.pot ≠
      (runInstr sampleShaHex sampleShaBytes sampleStream cx3g cx3ops).2.1 -
        (runInstr sampleShaHex sampleShaBytes sampleStream cx3g cx3ops).2.2 := by
  with_unfolding_all decide

/-- Witness for C3 (amended) on the same concrete trace. -/
theorem pot_equals_contributions_witness :
    cx3g.pot = 0 ∧
    (runSince sampleShaHex sampleShaBytes sampleStream cx3g cx3ops).1.pot =
      (runSince sampleShaHex sampleShaBytes sampleStream cx3g cx3ops).2 :=
  ⟨rfl, pot_equals_contributions_since_start sampleShaHex sampleShaBytes
    sampleStream cx3ops cx3g rfl⟩

/-! ## CFR traversal terminal logic (`CFRAgent._cfr_traverse`,
`cfr_strategy.py` lines 214–224) -/

/-- The terminal prelude of `_cfr_traverse`: depth/length bound (resolved
by strength comparison), fold at the end of the history, then showdown on
`betting_history.count('c') >= 2 or betting_history.endswith('cc')`.
Returns `some value` when a terminal branch returns, `none` when the
traversal continues into the action loop. -/
def cfrTerminal (pot : ℚ) (hist : List Char) (p1 p2 : ℚ)
    (playerToAct : Nat) (depth : Nat) : Option ℚ :=
  if depth > 10 ∨ hist.length > 8 then
    some (pot * (1 / 2) * (if p1 > p2 then 1 else -1))
  else if hist.contains 'f' ∧ (['f'].isSuffixOf hist) then
    some (if playerToAct = 1 then pot * (1 / 2) else -(pot * (1 / 2)))
  else if hist.count 'c' ≥ 2 ∨ (['c', 'c'].isSuffixOf hist) then
    some (pot * (1 / 2) * (if p1 > p2 then 1 else -1))
  else none

theorem count_le_of_isSuffixOf {l s : List Char} (c : Char)
    (h : s.isSuffixOf l) : s.count c ≤ l.count c :=
  (List.isSuffixOf_iff_suffix.mp h).sublist.count_le c

/-- C8 (amended): within the depth and length bounds and when the history
does not end with a fold token, the traversal terminates via showdown
(direct strength comparison awarding half the pot to the stronger seat)
exactly when the history contains at least two call tokens anywhere — not
only when it ends with two consecutive call tokens. -/
theorem cfrTerminal_showdown_iff (pot p1 p2 : ℚ) (playerToAct depth : Nat)
    (hist : List Char) (hd : depth ≤ 10) (hl : hist.length ≤ 8)
    (hf : (['f'].isSuffixOf hist) = false) :
    cfrTerminal pot hist p1 p2 playerToAct depth =
        some (pot * (1 / 2) * (if p1 > p2 then 1 else -1)) ↔
      2 ≤ hist.count 'c' := by
  unfold cfrTerminal
  rw [if_neg (by omega)]
  rw [if_neg (by simp [hf])]
  by_cases hc : 2 ≤ hist.count 'c'
  · rw [if_pos (Or.inl hc)]
    exact iff_of_true rfl hc
  · rw [if_neg ?hcc]
    case hcc =>
      rintro (h | h)
      · exact hc h
      · refine hc ?_
        have := count_le_of_isSuffixOf 'c' h
        simpa using this
    exact iff_of_false (by simp) hc

/-- Witness for C8 (amended) at a concrete history of two calls. -/
theorem cfrTerminal_showdown_iff_witness :
    (cfrTerminal 30 ['c', 'c'] (3 / 4) (1 / 4) 0 0 =
        some (30 * (1 / 2) * (if (3 / 4 : ℚ) > 1 / 4 then 1 else -1)) ↔
      2 ≤ (['c', 'c'] : List Char).count 'c') ∧
    cfrTerminal 30 ['c', 'c'] (3 / 4) (1 / 4) 0 0 = some 15 :=
  ⟨cfrTerminal_showdown_iff 30 (3 / 4) (1 / 4) 0 0 ['c', 'c'] (by decide)
    (by decide) (by decide),
   by with_unfolding_all decide⟩

/-- C8 counterexample: the history `"crc"` (call, raise, call) is within
both bounds and its call tokens are not consecutive — it does not end with
`"cc"` — yet the traversal terminates via showdown there, because the code
tests `count('c') >= 2`. -/
theorem cfrTerminal_claim_counterexample :
    (['c', 'c'] : List Char).isSuffixOf ['c', 'r', 'c'] = false ∧
    (['c', 'r', 'c'] : List Char).length ≤ 8 ∧
    cfrTerminal 30 ['c', 'r', 'c'] (3 / 4) (1 / 4) 0 0 = some 15 := by
  refine ⟨by decide, by decide, ?_⟩
  with_unfolding_all decide
